import Mathlib

/-!
# Verification of the rangepool allocator and pool service

Shallow embedding of `range_pool.go` (package rangepool): the pure
allocator `nextItem` together with the storage-backed service operations
`Create`, `Delete` (and the spec-described `Search`).

Go `int` values are modelled as `Int`.  The external microstorage
key-value store is modelled as an association list from structured keys
(the five key families of the source's format strings) to `Int` values;
the string round-trip through `strconv.Itoa` / `strconv.Atoi` is the
identity on the integers the code ever writes, so values are kept as
integers directly.
-/

namespace Rangepool

/-- Error kinds of the package (`error.go`): error messages are dropped,
only the kind is tracked, matching `IsExecutionFailed` / `IsCapacityReached`
/ `IsItemsNotFound`. -/
inductive Err where
  | executionFailed
  | capacityReached
  | itemsNotFound
deriving DecidableEq

/-- `latestItemException` of `range_pool.go`: the sentinel meaning
"no latest item yet". -/
def latestItemException : Int := -1

/-- `containsInt(list, item)` of `range_pool.go`: linear membership scan. -/
def containsInt : List Int → Int → Bool
  | [], _ => false
  | l :: rest, item => if l = item then true else containsInt rest item

/-- The loop body of the `iterator` closure in `nextItem`:
`for i := lo; i <= hi; i++`, expressed with the trip count as fuel. -/
def iteratorAux (used : List Int) : Int → Nat → Int
  | _, 0 => latestItemException
  | i, Nat.succ n => if containsInt used i then iteratorAux used (i + 1) n else i

/-- The `iterator` closure in `nextItem`: first integer of `lo .. hi`
not contained in `used`, or the sentinel when every one is used. -/
def iterator (used : List Int) (lo hi : Int) : Int :=
  iteratorAux used lo (hi + 1 - lo).toNat

/-- `sort.Ints(used)` in `nextItem`: the sorted rearrangement of the list
(ascending); sorting is deterministic so insertion sort embeds it. -/
def sortInts (l : List Int) : List Int := List.insertionSort (fun a b => a ≤ b) l

/-- `nextItem(used, min, max, latest)` of `range_pool.go`: validation
checks in source order, then the two-phase scan (from `latest+1` when a
latest item is known, wrapping to a scan from `min`). -/
def nextItem (used : List Int) (min max latest : Int) : Except Err Int :=
  if min ≤ -1 then .error .executionFailed
  else if max ≤ -1 then .error .executionFailed
  else if min ≥ max then .error .executionFailed
  else if latest ≠ latestItemException ∧ latest < min then .error .executionFailed
  else if latest ≠ latestItemException ∧ latest > max then .error .executionFailed
  else if latest ≠ latestItemException ∧ iterator (sortInts used) (latest + 1) max ≠ latestItemException then
    .ok (iterator (sortInts used) (latest + 1) max)
  else if iterator (sortInts used) min max ≠ latestItemException then
    .ok (iterator (sortInts used) min max)
  else .error .capacityReached

/-- `v` is a free value of `lo .. hi`: in bounds and not used. -/
abbrev freeIn (used : List Int) (lo hi v : Int) : Prop :=
  lo ≤ v ∧ v ≤ hi ∧ v ∉ used

/-- `v` is the smallest free value of `lo .. hi`. -/
abbrev leastFreeIn (used : List Int) (lo hi v : Int) : Prop :=
  freeIn used lo hi v ∧ ∀ w, lo ≤ w → w < v → w ∈ used

/-- The validation preconditions of `nextItem`. -/
abbrev validArgs (min max latest : Int) : Prop :=
  0 ≤ min ∧ 0 ≤ max ∧ min < max ∧ (latest = -1 ∨ (min ≤ latest ∧ latest ≤ max))

lemma containsInt_iff (l : List Int) (i : Int) : containsInt l i = true ↔ i ∈ l := by
  induction l with
  | nil => simp [containsInt]
  | cons a rest ih =>
    by_cases h : a = i
    · simp [containsInt, h]
    · have h2 : ¬ i = a := fun he => h he.symm
      simp [containsInt, h, h2, ih]

lemma mem_sortInts (l : List Int) (i : Int) : i ∈ sortInts l ↔ i ∈ l :=
  List.mem_insertionSort _

lemma iteratorAux_spec (used : List Int) (n : Nat) (i : Int) :
    (iteratorAux used i n = latestItemException ∧
       ∀ j, i ≤ j → j < i + n → j ∈ used) ∨
    (i ≤ iteratorAux used i n ∧ iteratorAux used i n < i + n ∧
       iteratorAux used i n ∉ used ∧
       ∀ j, i ≤ j → j < iteratorAux used i n → j ∈ used) := by
  induction n generalizing i with
  | zero =>
    left
    refine ⟨rfl, ?_⟩
    intro j h1 h2
    omega
  | succ n ih =>
    by_cases hc : containsInt used i = true
    · have hmem : i ∈ used := (containsInt_iff used i).mp hc
      have step : iteratorAux used i (Nat.succ n) = iteratorAux used (i + 1) n := by
        simp [iteratorAux, hc]
      rcases ih (i + 1) with ⟨h1, h2⟩ | ⟨h1, h2, h3, h4⟩
      · left
        refine ⟨step.trans h1, ?_⟩
        intro j hj1 hj2
        by_cases hji : j = i
        · exact hji ▸ hmem
        · have : i + 1 ≤ j := by omega
          exact h2 j this (by omega)
      · right
        rw [step]
        refine ⟨by omega, by push_cast at h2 ⊢; omega, h3, ?_⟩
        intro j hj1 hj2
        by_cases hji : j = i
        · exact hji ▸ hmem
        · exact h4 j (by omega) hj2
    · have step : iteratorAux used i (Nat.succ n) = i := by
        simp [iteratorAux, hc]
      right
      rw [step]
      refine ⟨le_refl i, by push_cast; omega, ?_, ?_⟩
      · intro hmem
        exact hc ((containsInt_iff used i).mpr hmem)
      · intro j hj1 hj2
        omega

lemma iterator_spec (used : List Int) (lo hi : Int) :
    (iterator used lo hi = latestItemException ∧
       ∀ j, lo ≤ j → j ≤ hi → j ∈ used) ∨
    (lo ≤ iterator used lo hi ∧ iterator used lo hi ≤ hi ∧
       iterator used lo hi ∉ used ∧
       ∀ j, lo ≤ j → j < iterator used lo hi → j ∈ used) := by
  have hdef : iterator used lo hi = iteratorAux used lo (hi + 1 - lo).toNat := rfl
  have hcast : lo + ((hi + 1 - lo).toNat : Int) = if lo ≤ hi + 1 then hi + 1 else lo := by
    split <;> omega
  rcases iteratorAux_spec used (hi + 1 - lo).toNat lo with ⟨h1, h2⟩ | ⟨h1, h2, h3, h4⟩
  · left
    rw [hdef]
    refine ⟨h1, ?_⟩
    intro j hj1 hj2
    refine h2 j hj1 ?_
    rw [hcast]
    split <;> omega
  · right
    rw [hdef]
    rw [hcast] at h2
    refine ⟨h1, ?_, h3, h4⟩
    split at h2 <;> omega

lemma freeIn_sortInts (used : List Int) (lo hi v : Int) :
    freeIn (sortInts used) lo hi v ↔ freeIn used lo hi v := by
  simp [freeIn, mem_sortInts]

lemma leastFreeIn_sortInts (used : List Int) (lo hi v : Int) :
    leastFreeIn (sortInts used) lo hi v ↔ leastFreeIn used lo hi v := by
  simp [leastFreeIn, freeIn, mem_sortInts]

lemma iterator_least_of_free (used : List Int) (lo hi : Int) (hlo : 0 ≤ lo)
    (hfree : ∃ w, freeIn used lo hi w) :
    leastFreeIn used lo hi (iterator used lo hi) ∧
      iterator used lo hi ≠ latestItemException := by
  rcases iterator_spec used lo hi with ⟨h1, h2⟩ | ⟨h1, h2, h3, h4⟩
  · obtain ⟨w, hw1, hw2, hw3⟩ := hfree
    exact absurd (h2 w hw1 hw2) hw3
  · refine ⟨⟨⟨h1, h2, h3⟩, h4⟩, ?_⟩
    unfold latestItemException
    omega

lemma iterator_exhausted (used : List Int) (lo hi : Int)
    (hno : ∀ w, ¬ freeIn used lo hi w) :
    iterator used lo hi = latestItemException := by
  rcases iterator_spec used lo hi with ⟨h1, _⟩ | ⟨h1, h2, h3, _⟩
  · exact h1
  · exact absurd ⟨h1, h2, h3⟩ (hno _)

lemma nextItem_eq_of_valid (used : List Int) (min max latest : Int)
    (h : validArgs min max latest) :
    nextItem used min max latest =
      if latest ≠ latestItemException ∧
          iterator (sortInts used) (latest + 1) max ≠ latestItemException then
        .ok (iterator (sortInts used) (latest + 1) max)
      else if iterator (sortInts used) min max ≠ latestItemException then
        .ok (iterator (sortInts used) min max)
      else .error .capacityReached := by
  obtain ⟨h1, h2, h3, h4⟩ := h
  unfold nextItem latestItemException
  rw [if_neg (by omega), if_neg (by omega), if_neg (by omega),
    if_neg (by omega), if_neg (by omega)]

lemma nextItem_phase1 (used : List Int) (min max latest : Int)
    (hv : validArgs min max latest) (hl : latest ≠ -1)
    (hfree : ∃ w, freeIn used (latest + 1) max w) :
    nextItem used min max latest = .ok (iterator (sortInts used) (latest + 1) max) ∧
      leastFreeIn used (latest + 1) max (iterator (sortInts used) (latest + 1) max) := by
  have hlo : 0 ≤ latest + 1 := by
    rcases hv.2.2.2 with h | h
    · exact absurd h hl
    · omega
  have hfree2 : ∃ w, freeIn (sortInts used) (latest + 1) max w := by
    obtain ⟨w, hw⟩ := hfree
    exact ⟨w, (freeIn_sortInts used (latest + 1) max w).mpr hw⟩
  obtain ⟨hleast, hne⟩ := iterator_least_of_free (sortInts used) (latest + 1) max hlo hfree2
  rw [nextItem_eq_of_valid used min max latest hv]
  rw [if_pos ⟨by unfold latestItemException; exact hl, hne⟩]
  exact ⟨rfl, (leastFreeIn_sortInts used (latest + 1) max _).mp hleast⟩

lemma nextItem_phase2 (used : List Int) (min max latest : Int)
    (hv : validArgs min max latest)
    (hl : latest = -1 ∨ ∀ w, ¬ freeIn used (latest + 1) max w)
    (hfree : ∃ w, freeIn used min max w) :
    nextItem used min max latest = .ok (iterator (sortInts used) min max) ∧
      leastFreeIn used min max (iterator (sortInts used) min max) := by
  have hfree2 : ∃ w, freeIn (sortInts used) min max w := by
    obtain ⟨w, hw⟩ := hfree
    exact ⟨w, (freeIn_sortInts used min max w).mpr hw⟩
  obtain ⟨hleast, hne⟩ := iterator_least_of_free (sortInts used) min max hv.1 hfree2
  rw [nextItem_eq_of_valid used min max latest hv]
  have hcond : ¬ (latest ≠ latestItemException ∧
      iterator (sortInts used) (latest + 1) max ≠ latestItemException) := by
    rcases hl with h | h
    · intro hc
      exact hc.1 (by unfold latestItemException; exact h)
    · intro hc
      refine hc.2 (iterator_exhausted (sortInts used) (latest + 1) max ?_)
      intro w hw
      exact h w ((freeIn_sortInts used (latest + 1) max w).mp hw)
  rw [if_neg hcond, if_pos hne]
  exact ⟨rfl, (leastFreeIn_sortInts used min max _).mp hleast⟩

lemma nextItem_capacity (used : List Int) (min max latest : Int)
    (hv : validArgs min max latest)
    (hno : ∀ w, ¬ freeIn used min max w) :
    nextItem used min max latest = .error .capacityReached := by
  have hno2 : ∀ lo : Int, min ≤ lo → iterator (sortInts used) lo max = latestItemException := by
    intro lo hlo
    refine iterator_exhausted (sortInts used) lo max ?_
    intro w hw
    rw [freeIn_sortInts] at hw
    exact hno w ⟨by omega, hw.2.1, hw.2.2⟩
  rw [nextItem_eq_of_valid used min max latest hv]
  have hcond : ¬ (latest ≠ latestItemException ∧
      iterator (sortInts used) (latest + 1) max ≠ latestItemException) := by
    intro hc
    rcases hv.2.2.2 with h | h
    · exact hc.1 (by unfold latestItemException; exact h)
    · exact hc.2 (hno2 (latest + 1) (by omega))
  rw [if_neg hcond, if_neg (by simpa using hno2 min le_rfl)]

lemma nextItem_ok_inv (used : List Int) (min max latest v : Int)
    (h : nextItem used min max latest = .ok v) :
    validArgs min max latest ∧ min ≤ v ∧ v ≤ max ∧ v ∉ used := by
  unfold nextItem latestItemException at h
  split_ifs at h with h1 h2 h3 h4 h5 h6 h7
  · have hvalid : validArgs min max latest := ⟨by omega, by omega, by omega, by omega⟩
    have hv := Except.ok.inj h
    subst hv
    rcases iterator_spec (sortInts used) (latest + 1) max with ⟨e1, _⟩ | ⟨e1, e2, e3, _⟩
    · exact absurd e1 h6.2
    · have hlat : latest ≥ min := by omega
      refine ⟨hvalid, by omega, by omega, ?_⟩
      rw [mem_sortInts] at e3
      exact e3
  · have hvalid : validArgs min max latest := ⟨by omega, by omega, by omega, by omega⟩
    have hv := Except.ok.inj h
    subst hv
    rcases iterator_spec (sortInts used) min max with ⟨e1, _⟩ | ⟨e1, e2, e3, _⟩
    · exact absurd e1 h7
    · refine ⟨hvalid, e1, e2, ?_⟩
      rw [mem_sortInts] at e3
      exact e3

/-- C1: for every `nextItem(used, min, max, latest)` call satisfying the
validation preconditions, the result is the smallest unused value of
`latest+1 .. max` when `latest` is not the sentinel and such a value
exists, otherwise the smallest unused value of `min .. max` when one
exists, otherwise the call fails with `CapacityReached`. -/
theorem nextItem_correct (used : List Int) (min max latest : Int)
    (hmin : 0 ≤ min) (hmax : 0 ≤ max) (hminmax : min < max)
    (hlatest : latest = -1 ∨ (min ≤ latest ∧ latest ≤ max)) :
    (latest ≠ -1 → (∃ w, freeIn used (latest + 1) max w) →
        ∃ v, nextItem used min max latest = .ok v ∧ leastFreeIn used (latest + 1) max v) ∧
    ((latest = -1 ∨ ∀ w, ¬ freeIn used (latest + 1) max w) →
        (∃ w, freeIn used min max w) →
        ∃ v, nextItem used min max latest = .ok v ∧ leastFreeIn used min max v) ∧
    ((∀ w, ¬ freeIn used min max w) →
        nextItem used min max latest = .error .capacityReached) := by
  have hv : validArgs min max latest := ⟨hmin, hmax, hminmax, hlatest⟩
  refine ⟨?_, ?_, ?_⟩
  · intro hl hfree
    obtain ⟨he, hle⟩ := nextItem_phase1 used min max latest hv hl hfree
    exact ⟨_, he, hle⟩
  · intro hl hfree
    obtain ⟨he, hle⟩ := nextItem_phase2 used min max latest hv hl hfree
    exact ⟨_, he, hle⟩
  · intro hno
    exact nextItem_capacity used min max latest hv hno

theorem nextItem_correct_witness :
    (∃ v, nextItem [3, 4, 6] 2 9 5 = .ok v ∧ leastFreeIn [3, 4, 6] 6 9 v) ∧
    (∃ v, nextItem [3, 4, 6] 2 9 9 = .ok v ∧ leastFreeIn [3, 4, 6] 2 9 v) := by
  constructor
  · exact (nextItem_correct [3, 4, 6] 2 9 5 (by decide) (by decide) (by decide)
      (Or.inr (by decide))).1 (by decide) ⟨7, by decide⟩
  · exact (nextItem_correct [3, 4, 6] 2 9 9 (by decide) (by decide) (by decide)
      (Or.inr (by decide))).2.1
      (Or.inr (fun w hw => by simp only [freeIn] at hw; omega)) ⟨2, by decide⟩

/-- C5: `nextItem` fails with `ExecutionFailed` exactly when the
validation preconditions are violated; in particular with `min=2`,
`max=9` both `latest=10` and `latest=0` fail that way. -/
theorem nextItem_executionFailed_iff (used : List Int) (min max latest : Int) :
    (nextItem used min max latest = .error .executionFailed ↔
      (min < 0 ∨ max < 0 ∨ min ≥ max ∨ (latest ≠ -1 ∧ (latest < min ∨ latest > max)))) ∧
    nextItem [3, 4, 6] 2 9 10 = .error .executionFailed ∧
    nextItem [3, 4, 6] 2 9 0 = .error .executionFailed := by
  refine ⟨⟨?_, ?_⟩, rfl, rfl⟩
  · intro h
    unfold nextItem latestItemException at h
    split_ifs at h with h1 h2 h3 h4 h5 h6 h7 <;> first | omega | simp at h
  · intro hdis
    unfold nextItem latestItemException
    split_ifs with h1 h2 h3 h4 h5 h6 h7 <;> first | rfl | (exfalso; omega)

/-! ## The key-value storage model

The five key families built by the `fmt.Sprintf` format strings
`ItemKeyFormat`, `IDKeyFormat`, `ItemListKeyFormat`, `IDListKeyFormat`
and `LatestKeyFormat` of `range_pool.go`, as a structured key type; the
store itself (external collaborator `microstorage.Service`) is a map
from keys to integer values, modelled as an association list with
overwrite-on-create.  A `list` of one of the two list keys is the
prefix scan returning the values of the matching point keys; a missing
key reports "not found", which the code treats as the empty list / the
sentinel wherever it reads. -/

inductive Key where
  | item : String → Int → Key
  | id : String → String → Int → Key
  | itemList : String → Key
  | idList : String → String → Key
  | latest : String → Key
deriving DecidableEq

abbrev Storage := List (Key × Int)

/-- `storage.Search(key)`: point lookup (`none` models "not found"). -/
def Storage.search (st : Storage) (k : Key) : Option Int :=
  match st.find? (fun p => decide (p.1 = k)) with
  | some p => some p.2
  | none => none

/-- `storage.Create(key, value)`: set the key to the value. -/
def Storage.create (st : Storage) (k : Key) (v : Int) : Storage :=
  (k, v) :: st.filter (fun p => decide (¬ p.1 = k))

/-- `storage.Delete(key)`: remove the key (no-op when absent). -/
def Storage.delete (st : Storage) (k : Key) : Storage :=
  st.filter (fun p => decide (¬ p.1 = k))

/-- The point keys scanned by `list` of `ItemListKeyFormat` for `ns`. -/
def isNamespaceItemKey (ns : String) : Key → Bool
  | Key.item ns2 _ => decide (ns2 = ns)
  | _ => false

/-- The point keys scanned by `list` of `IDListKeyFormat` for `ns`/`ID`. -/
def isOwnerItemKey (ns ID : String) : Key → Bool
  | Key.id ns2 id2 _ => decide (ns2 = ns ∧ id2 = ID)
  | _ => false

/-- The values of the entries whose key satisfies `p`. -/
def Storage.listKeys (st : Storage) (p : Key → Bool) : List Int :=
  (st.filter (fun q => p q.1)).map Prod.snd

/-- `storage.List(ItemListKeyFormat ns)` followed by `stringsToInts`:
the values of the namespace's item records ("not found" is the empty
list). -/
def Storage.listNamespace (st : Storage) (ns : String) : List Int :=
  st.listKeys (isNamespaceItemKey ns)

/-- `storage.List(IDListKeyFormat ns ID)` followed by `stringsToInts`:
the values of the owner's item records. -/
def Storage.listOwner (st : Storage) (ns ID : String) : List Int :=
  st.listKeys (isOwnerItemKey ns ID)

/-- The latest-cursor read in `Service.Create`: `storage.Search` of
`LatestKeyFormat ns`, with "not found" mapped to the sentinel `-1`. -/
def Storage.readLatest (st : Storage) (ns : String) : Int :=
  match st.search (Key.latest ns) with
  | none => latestItemException
  | some l => l

/-! ## The pool service -/

/-- The allocation loop of `Service.Create`: `num` calls of `nextItem`,
each chosen item appended to `items` and folded into `used`; `latest`
is not changed inside the loop. -/
def allocItems (used : List Int) (min max latest : Int) : Nat → Except Err (List Int)
  | 0 => .ok []
  | Nat.succ n =>
    match nextItem used min max latest with
    | .error e => .error e
    | .ok item =>
      match allocItems (used ++ [item]) min max latest n with
      | .error e => .error e
      | .ok rest => .ok (item :: rest)

/-- The per-item write loop of `Service.create`: for each item a
namespace-level record and an owner-level record, both with the item as
value. -/
def persistItems (ns ID : String) : Storage → List Int → Storage
  | st, [] => st
  | st, item :: rest =>
      persistItems ns ID
        ((st.create (Key.item ns item) item).create (Key.id ns ID item) item) rest

/-- `Service.create` (lower-case) of `range_pool.go`: persist the items,
then write the latest cursor from `items[len(items)-1]`.  The result
`none` models the Go runtime panic of that index when `items` is empty. -/
def Service.create (st : Storage) (ns ID : String) (items : List Int) : Option Storage :=
  let st1 := persistItems ns ID st items
  match items.getLast? with
  | none => none
  | some last => some (st1.create (Key.latest ns) last)

/-- `Service.Create` of `range_pool.go`: read the namespace's used items
and latest cursor, run the allocation loop, then persist.  The storage
is threaded through the result; an allocator error returns the storage
unchanged (the code returns before any write), and `none` models the
panic inside `Service.create`. -/
def Service.Create (st : Storage) (ns ID : String) (num min max : Int) :
    Option (Except Err (List Int) × Storage) :=
  match allocItems (st.listNamespace ns) min max (st.readLatest ns) num.toNat with
  | .error e => some (.error e, st)
  | .ok items =>
    match Service.create st ns ID items with
    | none => none
    | some st1 => some (.ok items, st1)

/-- The per-item delete loop of `Service.delete`: for each listed item,
delete its namespace-level record and its owner-level record. -/
def deleteItems (ns ID : String) : Storage → List Int → Storage
  | st, [] => st
  | st, item :: rest =>
      deleteItems ns ID ((st.delete (Key.item ns item)).delete (Key.id ns ID item)) rest

/-- `Service.delete` (lower-case) of `range_pool.go`: delete the items'
records, delete the owner's item-list key, and when the namespace's
item list is then empty also delete the namespace's item-list key and
latest-cursor key. -/
def Service.delete (st : Storage) (ns ID : String) (items : List Int) : Storage :=
  let st1 := deleteItems ns ID st items
  let st2 := st1.delete (Key.idList ns ID)
  if (st2.listNamespace ns).isEmpty then
    (st2.delete (Key.itemList ns)).delete (Key.latest ns)
  else st2

/-- `Service.Delete` of `range_pool.go`: list the owner's items ("not
found" treated as none) and run `Service.delete` on them.  The model
storage never fails, so the operation always succeeds. -/
def Service.Delete (st : Storage) (ns ID : String) : Storage :=
  Service.delete st ns ID (st.listOwner ns ID)

/-- Modelled from the spec: the repository's `Service.Search` method is
not under src/ (only `range_pool_test.go` calls it).  Per the spec's
§4.2: "Returns every item currently owned by `ownerID` within
`namespace`, in ascending numeric order.  Fails with `ItemsNotFound` if
the owner currently holds no items." -/
def Service.Search (st : Storage) (ns ID : String) : Except Err (List Int) :=
  let items := st.listOwner ns ID
  if items.isEmpty then .error .itemsNotFound
  else .ok (sortInts items)

/-- Well-formedness of a store state: every namespace-level or
owner-level item record carries its own item as value (true of every
state the service writes: both record kinds are created with the item
as value). -/
def entryOKb : Key × Int → Bool
  | (Key.item _ v, w) => decide (w = v)
  | (Key.id _ _ v, w) => decide (w = v)
  | _ => true

/-- A store state in which every item record's value is its key's item. -/
def WF (st : Storage) : Prop := ∀ p ∈ st, entryOKb p = true

instance (st : Storage) : Decidable (WF st) :=
  List.decidableBAll _ st

/-! ## Storage lemmas -/

lemma find?_filter_of_imp (l : List (Key × Int)) (p q : Key × Int → Bool)
    (h : ∀ a, p a = true → q a = true) :
    (l.filter q).find? p = l.find? p := by
  induction l with
  | nil => rfl
  | cons a l ih =>
    by_cases hq : q a = true
    · rw [List.filter_cons_of_pos hq]
      by_cases hp : p a = true
      · rw [List.find?_cons_of_pos _ hp, List.find?_cons_of_pos _ hp]
      · rw [List.find?_cons_of_neg _ (by simp [hp]), List.find?_cons_of_neg _ (by simp [hp]), ih]
    · rw [List.filter_cons_of_neg (by simpa using hq)]
      have hp : ¬ p a = true := fun hpa => hq (h a hpa)
      rw [List.find?_cons_of_neg _ (by simp [hp]), ih]

lemma search_create_self (st : Storage) (k : Key) (v : Int) :
    (st.create k v).search k = some v := by
  unfold Storage.create Storage.search
  rw [List.find?_cons_of_pos _ (by simp)]

lemma search_create_ne (st : Storage) (k k2 : Key) (v : Int) (h : k2 ≠ k) :
    (st.create k v).search k2 = st.search k2 := by
  unfold Storage.create Storage.search
  rw [List.find?_cons_of_neg _ (by simp [h.symm])]
  rw [find?_filter_of_imp]
  intro a ha
  have : a.1 = k2 := of_decide_eq_true ha
  simp [this, h]

lemma search_delete_self (st : Storage) (k : Key) :
    (st.delete k).search k = none := by
  unfold Storage.delete Storage.search
  cases hf : (st.filter fun p => decide (¬ p.1 = k)).find? (fun p => decide (p.1 = k)) with
  | none => rfl
  | some q =>
    have hmem := List.mem_of_find?_eq_some hf
    have hq0 := List.find?_some hf
    have hq : q.1 = k := by simpa using hq0
    rw [List.mem_filter] at hmem
    exact absurd hq (by simpa using hmem.2)

lemma search_delete_ne (st : Storage) (k k2 : Key) (h : k2 ≠ k) :
    (st.delete k).search k2 = st.search k2 := by
  unfold Storage.delete Storage.search
  rw [find?_filter_of_imp]
  intro a ha
  have : a.1 = k2 := of_decide_eq_true ha
  simp [this, h]

lemma mem_delete_iff (st : Storage) (k : Key) (p : Key × Int) :
    p ∈ st.delete k ↔ p ∈ st ∧ ¬ p.1 = k := by
  unfold Storage.delete
  simp [List.mem_filter]

lemma mem_create_iff (st : Storage) (k : Key) (v : Int) (p : Key × Int) :
    p ∈ st.create k v ↔ p = (k, v) ∨ (p ∈ st ∧ ¬ p.1 = k) := by
  unfold Storage.create
  simp [List.mem_filter]

lemma mem_of_search_eq_some (st : Storage) (k : Key) (v : Int)
    (h : st.search k = some v) : (k, v) ∈ st := by
  unfold Storage.search at h
  cases hf : st.find? (fun p => decide (p.1 = k)) with
  | none => rw [hf] at h; exact absurd h (by simp)
  | some q =>
    rw [hf] at h
    obtain ⟨qk, qv⟩ := q
    have h10 := List.find?_some hf
    have h1 : qk = k := by simpa using h10
    have h2 : qv = v := Option.some.inj h
    have hmem := List.mem_of_find?_eq_some hf
    rw [h1, h2] at hmem
    exact hmem

lemma mem_listKeys (st : Storage) (p : Key → Bool) (x : Int) :
    x ∈ st.listKeys p ↔ ∃ k, (k, x) ∈ st ∧ p k = true := by
  unfold Storage.listKeys
  simp only [List.mem_map, List.mem_filter]
  constructor
  · rintro ⟨⟨k, y⟩, ⟨hmem, hp⟩, he⟩
    simp only at he
    subst he
    exact ⟨k, hmem, hp⟩
  · rintro ⟨k, hmem, hp⟩
    exact ⟨(k, x), ⟨hmem, hp⟩, rfl⟩

lemma listKeys_removeKey (st : Storage) (k : Key) (p : Key → Bool) (h : p k = false) :
    Storage.listKeys (st.filter fun q => decide (¬ q.1 = k)) p = st.listKeys p := by
  unfold Storage.listKeys
  rw [List.filter_filter]
  refine congrArg _ (List.filter_congr ?_)
  intro a _
  by_cases hk : a.1 = k
  · have hp : p a.1 = false := by rw [hk]; exact h
    simp [hp, hk, h]
  · simp [hk]

lemma listKeys_delete_of_neg (st : Storage) (k : Key) (p : Key → Bool) (h : p k = false) :
    (st.delete k).listKeys p = st.listKeys p :=
  listKeys_removeKey st k p h

lemma listKeys_create_of_neg (st : Storage) (k : Key) (v : Int) (p : Key → Bool)
    (h : p k = false) :
    (st.create k v).listKeys p = st.listKeys p := by
  unfold Storage.create
  unfold Storage.listKeys
  rw [List.filter_cons_of_neg (by simp [h])]
  exact listKeys_removeKey st k p h

lemma listKeys_create_of_pos (st : Storage) (k : Key) (v : Int) (p : Key → Bool)
    (hp : p k = true) (hfresh : ∀ q ∈ st, ¬ q.1 = k) :
    (st.create k v).listKeys p = v :: st.listKeys p := by
  unfold Storage.create
  have heq : (st.filter fun q => decide (¬ q.1 = k)) = st :=
    List.filter_eq_self.mpr (fun q hq => by simpa using hfresh q hq)
  rw [heq]
  unfold Storage.listKeys
  rw [List.filter_cons_of_pos (by simpa using hp)]
  rfl

lemma listKeys_nil_iff (st : Storage) (p : Key → Bool) :
    st.listKeys p = [] ↔ ∀ q ∈ st, p q.1 = false := by
  unfold Storage.listKeys
  simp only [List.map_eq_nil_iff, List.filter_eq_nil_iff]
  constructor
  · intro h q hq
    simpa using h q hq
  · intro h q hq
    simp [h q hq]

/-! ## Persistence and deletion lemmas -/

lemma mem_create_of_ne (st : Storage) (k : Key) (v : Int) (p : Key × Int)
    (hp : p ∈ st) (hne : ¬ p.1 = k) : p ∈ st.create k v :=
  (mem_create_iff st k v p).mpr (Or.inr ⟨hp, hne⟩)

lemma persistItems_search_frame (ns ID : String) (items : List Int) (st : Storage) (k : Key)
    (h : ∀ w ∈ items, k ≠ Key.item ns w ∧ k ≠ Key.id ns ID w) :
    (persistItems ns ID st items).search k = st.search k := by
  induction items generalizing st with
  | nil => rfl
  | cons w rest ih =>
    unfold persistItems
    rw [ih _ (fun x hx => h x (List.mem_cons_of_mem w hx))]
    rw [search_create_ne _ _ _ _ (h w (List.mem_cons_self w rest)).2,
      search_create_ne _ _ _ _ (h w (List.mem_cons_self w rest)).1]

lemma persistItems_search_item (ns ID : String) (items : List Int) (st : Storage) (v : Int)
    (hv : v ∈ items) :
    (persistItems ns ID st items).search (Key.item ns v) = some v ∧
      (persistItems ns ID st items).search (Key.id ns ID v) = some v := by
  induction items generalizing st with
  | nil => cases hv
  | cons w rest ih =>
    unfold persistItems
    by_cases hvr : v ∈ rest
    · exact ih _ hvr
    · have hvw : v = w := by
        rcases List.mem_cons.mp hv with h | h
        · exact h
        · exact absurd h hvr
      subst hvw
      constructor
      · rw [persistItems_search_frame ns ID rest _ _ ?_]
        · rw [search_create_ne _ _ _ _ (fun he => Key.noConfusion he), search_create_self]
        · intro x hx
          refine ⟨fun he => ?_, fun he => Key.noConfusion he⟩
          injection he with e1 e2
          subst e2
          exact hvr hx
      · rw [persistItems_search_frame ns ID rest _ _ ?_]
        · rw [search_create_self]
        · intro x hx
          refine ⟨fun he => Key.noConfusion he, fun he => ?_⟩
          injection he with e1 e2 e3
          subst e3
          exact hvr hx

lemma mem_persistItems_of (ns ID : String) (items : List Int) (st : Storage) (p : Key × Int)
    (hp : p ∈ st) (h : ∀ w ∈ items, ¬ p.1 = Key.item ns w ∧ ¬ p.1 = Key.id ns ID w) :
    p ∈ persistItems ns ID st items := by
  induction items generalizing st with
  | nil => exact hp
  | cons w rest ih =>
    unfold persistItems
    refine ih _ ?_ (fun x hx => h x (List.mem_cons_of_mem w hx))
    exact mem_create_of_ne _ _ _ _
      (mem_create_of_ne _ _ _ _ hp (h w (List.mem_cons_self w rest)).1)
      (h w (List.mem_cons_self w rest)).2

lemma mem_deleteItems_iff (ns ID : String) (items : List Int) (st : Storage) (p : Key × Int) :
    p ∈ deleteItems ns ID st items ↔
      p ∈ st ∧ ∀ w ∈ items, ¬ p.1 = Key.item ns w ∧ ¬ p.1 = Key.id ns ID w := by
  induction items generalizing st with
  | nil => simp [deleteItems]
  | cons w rest ih =>
    unfold deleteItems
    rw [ih, mem_delete_iff, mem_delete_iff]
    constructor
    · rintro ⟨⟨⟨hst, h1⟩, h2⟩, h3⟩
      refine ⟨hst, ?_⟩
      intro x hx
      rcases List.mem_cons.mp hx with rfl | hx
      · exact ⟨h1, h2⟩
      · exact h3 x hx
    · rintro ⟨hst, hall⟩
      exact ⟨⟨⟨hst, (hall w (List.mem_cons_self w rest)).1⟩,
        (hall w (List.mem_cons_self w rest)).2⟩,
        fun x hx => hall x (List.mem_cons_of_mem w hx)⟩

lemma deleteItems_search_frame (ns ID : String) (items : List Int) (st : Storage) (k : Key)
    (h : ∀ w ∈ items, ¬ k = Key.item ns w ∧ ¬ k = Key.id ns ID w) :
    (deleteItems ns ID st items).search k = st.search k := by
  induction items generalizing st with
  | nil => rfl
  | cons w rest ih =>
    unfold deleteItems
    rw [ih _ (fun x hx => h x (List.mem_cons_of_mem w hx))]
    rw [search_delete_ne _ _ _ (h w (List.mem_cons_self w rest)).2,
      search_delete_ne _ _ _ (h w (List.mem_cons_self w rest)).1]

/-! ## Well-formedness lemmas -/

lemma WF_create (st : Storage) (k : Key) (v : Int) (hwf : WF st)
    (hok : entryOKb (k, v) = true) : WF (st.create k v) := by
  intro p hp
  rcases (mem_create_iff st k v p).mp hp with rfl | ⟨hmem, _⟩
  · exact hok
  · exact hwf p hmem

lemma WF_delete (st : Storage) (k : Key) (hwf : WF st) : WF (st.delete k) :=
  fun p hp => hwf p (List.mem_of_mem_filter hp)

lemma WF_persistItems (ns ID : String) (items : List Int) (st : Storage) (hwf : WF st) :
    WF (persistItems ns ID st items) := by
  induction items generalizing st with
  | nil => exact hwf
  | cons w rest ih =>
    unfold persistItems
    exact ih _ (WF_create _ _ _ (WF_create _ _ _ hwf (by simp [entryOKb])) (by simp [entryOKb]))

lemma WF_deleteItems (ns ID : String) (items : List Int) (st : Storage) (hwf : WF st) :
    WF (deleteItems ns ID st items) := by
  induction items generalizing st with
  | nil => exact hwf
  | cons w rest ih =>
    unfold deleteItems
    exact ih _ (WF_delete _ _ (WF_delete _ _ hwf))

lemma WF_item_value (st : Storage) (ns : String) (x v : Int) (hwf : WF st)
    (h : (Key.item ns x, v) ∈ st) : v = x := by
  have := hwf _ h
  simpa [entryOKb] using this

lemma WF_id_value (st : Storage) (ns ID : String) (x v : Int) (hwf : WF st)
    (h : (Key.id ns ID x, v) ∈ st) : v = x := by
  have := hwf _ h
  simpa [entryOKb] using this

lemma isNamespaceItemKey_iff (ns : String) (k : Key) :
    isNamespaceItemKey ns k = true ↔ ∃ w, k = Key.item ns w := by
  cases k <;> simp [isNamespaceItemKey]

lemma isOwnerItemKey_iff (ns ID : String) (k : Key) :
    isOwnerItemKey ns ID k = true ↔ ∃ w, k = Key.id ns ID w := by
  cases k <;> simp [isOwnerItemKey]

lemma mem_listNamespace_WF (st : Storage) (ns : String) (x : Int) (hwf : WF st) :
    x ∈ st.listNamespace ns ↔ (Key.item ns x, x) ∈ st := by
  rw [Storage.listNamespace, mem_listKeys]
  constructor
  · rintro ⟨k, hmem, hk⟩
    obtain ⟨w, rfl⟩ := (isNamespaceItemKey_iff ns k).mp hk
    have hv := WF_item_value st ns w x hwf hmem
    subst hv
    exact hmem
  · intro h
    exact ⟨Key.item ns x, h, by simp [isNamespaceItemKey]⟩

lemma mem_listOwner_WF (st : Storage) (ns ID : String) (x : Int) (hwf : WF st) :
    x ∈ st.listOwner ns ID ↔ (Key.id ns ID x, x) ∈ st := by
  rw [Storage.listOwner, mem_listKeys]
  constructor
  · rintro ⟨k, hmem, hk⟩
    obtain ⟨w, rfl⟩ := (isOwnerItemKey_iff ns ID k).mp hk
    have hv := WF_id_value st ns ID w x hwf hmem
    subst hv
    exact hmem
  · intro h
    exact ⟨Key.id ns ID x, h, by simp [isOwnerItemKey]⟩

/-! ## Allocation-loop and Create lemmas -/

lemma nextItem_error_kind (used : List Int) (min max latest : Int) (e : Err)
    (h : nextItem used min max latest = .error e) :
    e = .executionFailed ∨ e = .capacityReached := by
  unfold nextItem at h
  split_ifs at h <;>
    first
      | exact Or.inl (Except.error.inj h).symm
      | exact Or.inr (Except.error.inj h).symm

lemma allocItems_succ_error (used : List Int) (min max latest : Int) (n : Nat) (e : Err)
    (hn : nextItem used min max latest = .error e) :
    allocItems used min max latest (Nat.succ n) = .error e := by
  unfold allocItems
  rw [hn]

lemma allocItems_succ_ok (used : List Int) (min max latest : Int) (n : Nat) (item : Int)
    (hn : nextItem used min max latest = .ok item) :
    allocItems used min max latest (Nat.succ n) =
      match allocItems (used ++ [item]) min max latest n with
      | .error e => .error e
      | .ok rest => .ok (item :: rest) := by
  conv_lhs => unfold allocItems
  rw [hn]

lemma allocItems_error_kind (min max latest : Int) :
    ∀ (n : Nat) (used : List Int) (e : Err),
      allocItems used min max latest n = .error e →
      e = .executionFailed ∨ e = .capacityReached := by
  intro n
  induction n with
  | zero =>
    intro used e h
    exact absurd h (by simp [allocItems])
  | succ n ih =>
    intro used e h
    cases hn : nextItem used min max latest with
    | error e2 =>
      rw [allocItems_succ_error used min max latest n e2 hn] at h
      have he : e2 = e := Except.error.inj h
      subst he
      exact nextItem_error_kind used min max latest e2 hn
    | ok item =>
      rw [allocItems_succ_ok used min max latest n item hn] at h
      cases hr : allocItems (used ++ [item]) min max latest n with
      | error e2 =>
        rw [hr] at h
        simp only [] at h
        have he : e2 = e := Except.error.inj h
        subst he
        exact ih _ _ hr
      | ok rest =>
        rw [hr] at h
        simp at h

lemma allocItems_ok_inv (min max latest : Int) :
    ∀ (n : Nat) (used items : List Int),
      allocItems used min max latest n = .ok items →
      items.length = n ∧ items.Nodup ∧
        (∀ v ∈ items, v ∉ used ∧ min ≤ v ∧ v ≤ max) ∧
        (items ≠ [] → validArgs min max latest) := by
  intro n
  induction n with
  | zero =>
    intro used items h
    unfold allocItems at h
    have he : items = [] := (Except.ok.inj h).symm
    subst he
    exact ⟨rfl, List.nodup_nil, by simp, by simp⟩
  | succ n ih =>
    intro used items h
    cases hn : nextItem used min max latest with
    | error e =>
      rw [allocItems_succ_error used min max latest n e hn] at h
      exact absurd h (by simp)
    | ok item =>
      rw [allocItems_succ_ok used min max latest n item hn] at h
      cases hr : allocItems (used ++ [item]) min max latest n with
      | error e =>
        rw [hr] at h
        simp at h
      | ok rest =>
        rw [hr] at h
        simp only [] at h
        have he : items = item :: rest := (Except.ok.inj h).symm
        subst he
        obtain ⟨hvalid, hb1, hb2, hnotin⟩ := nextItem_ok_inv used min max latest item hn
        obtain ⟨hlen, hnodup, hprops, _⟩ := ih (used ++ [item]) rest hr
        refine ⟨by simp [hlen], ?_, ?_, fun _ => hvalid⟩
        · refine List.nodup_cons.mpr ⟨?_, hnodup⟩
          intro hmem
          have := (hprops item hmem).1
          simp at this
        · intro v hv
          rcases List.mem_cons.mp hv with rfl | hv0
          · exact ⟨hnotin, hb1, hb2⟩
          · obtain ⟨hnu, hb⟩ := hprops v hv0
            exact ⟨fun hm => hnu (by simp [hm]), hb⟩

lemma allocItems_head (used : List Int) (min max latest : Int) (n : Nat)
    (v : Int) (rest : List Int)
    (h : allocItems used min max latest n = .ok (v :: rest)) :
    nextItem used min max latest = .ok v := by
  cases n with
  | zero =>
    unfold allocItems at h
    have he : ([] : List Int) = v :: rest := Except.ok.inj h
    exact absurd he (by simp)
  | succ n =>
    cases hn : nextItem used min max latest with
    | error e =>
      rw [allocItems_succ_error used min max latest n e hn] at h
      exact absurd h (by simp)
    | ok item =>
      rw [allocItems_succ_ok used min max latest n item hn] at h
      cases hr : allocItems (used ++ [item]) min max latest n with
      | error e =>
        rw [hr] at h
        simp at h
      | ok rest2 =>
        rw [hr] at h
        simp only [] at h
        have he : item :: rest2 = v :: rest := Except.ok.inj h
        injection he with h1 _
        rw [h1]

lemma service_create_some_inv (st : Storage) (ns ID : String) (items : List Int)
    (stx : Storage) (h : Service.create st ns ID items = some stx) :
    ∃ last, items.getLast? = some last ∧
      stx = (persistItems ns ID st items).create (Key.latest ns) last := by
  simp only [Service.create] at h
  cases hl : items.getLast? with
  | none =>
    rw [hl] at h
    simp at h
  | some last =>
    rw [hl] at h
    simp only [] at h
    exact ⟨last, rfl, (Option.some.inj h).symm⟩

lemma ServiceCreate_eq_error (st : Storage) (ns ID : String) (num min max : Int) (e : Err)
    (ha : allocItems (st.listNamespace ns) min max (st.readLatest ns) num.toNat = .error e) :
    Service.Create st ns ID num min max = some (.error e, st) := by
  unfold Service.Create
  rw [ha]

lemma ServiceCreate_eq_ok (st : Storage) (ns ID : String) (num min max : Int)
    (items : List Int)
    (ha : allocItems (st.listNamespace ns) min max (st.readLatest ns) num.toNat = .ok items) :
    Service.Create st ns ID num min max =
      match Service.create st ns ID items with
      | none => none
      | some st1 => some (.ok items, st1) := by
  unfold Service.Create
  rw [ha]

lemma Create_ok_inv (st : Storage) (ns ID : String) (num min max : Int)
    (items : List Int) (st1 : Storage)
    (h : Service.Create st ns ID num min max = some (.ok items, st1)) :
    allocItems (st.listNamespace ns) min max (st.readLatest ns) num.toNat = .ok items ∧
      ∃ last, items.getLast? = some last ∧
        st1 = (persistItems ns ID st items).create (Key.latest ns) last := by
  cases ha : allocItems (st.listNamespace ns) min max (st.readLatest ns) num.toNat with
  | error e =>
    rw [ServiceCreate_eq_error st ns ID num min max e ha] at h
    simp at h
  | ok items2 =>
    rw [ServiceCreate_eq_ok st ns ID num min max items2 ha] at h
    cases hc : Service.create st ns ID items2 with
    | none =>
      rw [hc] at h
      simp at h
    | some stx =>
      rw [hc] at h
      simp only [] at h
      have hp : (Except.ok items2, stx) = ((Except.ok items : Except Err (List Int)), st1) :=
        Option.some.inj h
      have h1 : items2 = items := Except.ok.inj (congrArg Prod.fst hp)
      have h2 : stx = st1 := congrArg Prod.snd hp
      subst h1
      subst h2
      exact ⟨rfl, service_create_some_inv st ns ID items2 stx hc⟩

/-- C10: `Create` with `num ≤ 0` runs the allocation loop zero times and
then indexes `items[len(items)-1]` on the empty batch inside
`Service.create` — a runtime panic (modelled as `none`), for every
storage state. -/
theorem create_panics_on_nonpositive_num (st : Storage) (ns ID : String)
    (num min max : Int) (h : num ≤ 0) :
    Service.Create st ns ID num min max = none := by
  have hz : num.toNat = 0 := Int.toNat_of_nonpos h
  simp [Service.Create, hz, allocItems, Service.create]

theorem create_panics_on_nonpositive_num_witness :
    Service.Create [] "test-namespace" "test-id" 0 2 9 = none :=
  create_panics_on_nonpositive_num [] "test-namespace" "test-id" 0 2 9 (by decide)

/-- C4: when an allocator invocation inside a `Create` call fails, the
call returns that error — necessarily `ExecutionFailed` or
`CapacityReached` — with the storage unchanged: every allocator call
happens before the write phase, so no partial batch is committed. -/
theorem create_error_no_writes (st : Storage) (ns ID : String)
    (num min max : Int) (e : Err)
    (h : allocItems (st.listNamespace ns) min max (st.readLatest ns) num.toNat = .error e) :
    Service.Create st ns ID num min max = some (.error e, st) ∧
      (e = .executionFailed ∨ e = .capacityReached) :=
  ⟨ServiceCreate_eq_error st ns ID num min max e h,
    allocItems_error_kind min max (st.readLatest ns) num.toNat (st.listNamespace ns) e h⟩

theorem create_error_no_writes_witness :
    Service.Create [] "test-namespace" "test-id" 9 2 9 = some (.error .capacityReached, []) ∧
      (Err.capacityReached = .executionFailed ∨ Err.capacityReached = .capacityReached) :=
  create_error_no_writes [] "test-namespace" "test-id" 9 2 9 .capacityReached (by rfl)

/-- C2: a successful `Create(namespace, ID, num, min, max)` with
`num ≥ 1` returns exactly `num` pairwise-distinct items, none of which
was in the namespace's used set at the start of the call; for each item
both the namespace-level and the owner-level record are written with
the item as value, and the latest cursor is persisted as the batch's
last item. -/
theorem create_spec (st : Storage) (ns ID : String) (num min max : Int)
    (items : List Int) (st1 : Storage) (_hnum : 1 ≤ num)
    (h : Service.Create st ns ID num min max = some (.ok items, st1)) :
    items.length = num.toNat ∧ items.Nodup ∧
      (∀ v ∈ items, v ∉ st.listNamespace ns) ∧
      (∀ v ∈ items, st1.search (Key.item ns v) = some v ∧
        st1.search (Key.id ns ID v) = some v) ∧
      (∃ last, items.getLast? = some last ∧ st1.search (Key.latest ns) = some last) := by
  obtain ⟨ha, last, hlast, hst1⟩ := Create_ok_inv st ns ID num min max items st1 h
  obtain ⟨hlen, hnodup, hprops, _⟩ :=
    allocItems_ok_inv min max (st.readLatest ns) num.toNat (st.listNamespace ns) items ha
  refine ⟨hlen, hnodup, fun v hv => (hprops v hv).1, ?_, ?_⟩
  · intro v hv
    obtain ⟨hitem, hid⟩ := persistItems_search_item ns ID items st v hv
    subst hst1
    constructor
    · rw [search_create_ne _ _ _ _ (fun he => Key.noConfusion he)]
      exact hitem
    · rw [search_create_ne _ _ _ _ (fun he => Key.noConfusion he)]
      exact hid
  · refine ⟨last, hlast, ?_⟩
    subst hst1
    exact search_create_self _ _ _

theorem create_spec_witness :
    ∃ last, ([2, 3] : List Int).getLast? = some last ∧
      Storage.search [(Key.latest "ns", 3), (Key.id "ns" "A" 3, 3), (Key.item "ns" 3, 3),
        (Key.id "ns" "A" 2, 2), (Key.item "ns" 2, 2)] (Key.latest "ns") = some last :=
  (create_spec [] "ns" "A" 2 2 9 [2, 3]
    [(Key.latest "ns", 3), (Key.id "ns" "A" 3, 3), (Key.item "ns" 3, 3),
      (Key.id "ns" "A" 2, 2), (Key.item "ns" 2, 2)]
    (by decide) (by rfl)).2.2.2.2

/-! ## Sequences of Create calls (uniqueness) -/

lemma mem_listNamespace_of_entry (st : Storage) (ns : String) (x : Int)
    (h : (Key.item ns x, x) ∈ st) : x ∈ st.listNamespace ns :=
  (mem_listKeys st _ x).mpr ⟨Key.item ns x, h, by simp [isNamespaceItemKey]⟩

lemma Create_ok_items_fresh (st : Storage) (ns ID : String) (num min max : Int)
    (items : List Int) (st1 : Storage)
    (h : Service.Create st ns ID num min max = some (.ok items, st1)) :
    ∀ v ∈ items, v ∉ st.listNamespace ns := by
  obtain ⟨ha, _, _, _⟩ := Create_ok_inv st ns ID num min max items st1 h
  intro v hv
  exact ((allocItems_ok_inv min max (st.readLatest ns) num.toNat
    (st.listNamespace ns) items ha).2.2.1 v hv).1

lemma Create_ok_items_mem (st : Storage) (ns ID : String) (num min max : Int)
    (items : List Int) (st1 : Storage)
    (h : Service.Create st ns ID num min max = some (.ok items, st1)) :
    ∀ v ∈ items, v ∈ st1.listNamespace ns := by
  obtain ⟨ha, last, hlast, hst1⟩ := Create_ok_inv st ns ID num min max items st1 h
  intro v hv
  obtain ⟨hitem, _⟩ := persistItems_search_item ns ID items st v hv
  have hs : st1.search (Key.item ns v) = some v := by
    subst hst1
    rw [search_create_ne _ _ _ _ (fun he => Key.noConfusion he)]
    exact hitem
  exact mem_listNamespace_of_entry st1 ns v (mem_of_search_eq_some st1 _ v hs)

lemma Create_ok_WF (st : Storage) (ns ID : String) (num min max : Int)
    (items : List Int) (st1 : Storage) (hwf : WF st)
    (h : Service.Create st ns ID num min max = some (.ok items, st1)) : WF st1 := by
  obtain ⟨_, last, _, hst1⟩ := Create_ok_inv st ns ID num min max items st1 h
  subst hst1
  exact WF_create _ _ _ (WF_persistItems ns ID items st hwf) (by simp [entryOKb])

lemma Create_ok_listNamespace_mono (st : Storage) (ns ID : String) (num min max : Int)
    (items : List Int) (st1 : Storage) (hwf : WF st)
    (h : Service.Create st ns ID num min max = some (.ok items, st1)) :
    ∀ v ∈ st.listNamespace ns, v ∈ st1.listNamespace ns := by
  intro v hv
  by_cases hvi : v ∈ items
  · exact Create_ok_items_mem st ns ID num min max items st1 h v hvi
  · obtain ⟨_, last, _, hst1⟩ := Create_ok_inv st ns ID num min max items st1 h
    have hmem : (Key.item ns v, v) ∈ st := (mem_listNamespace_WF st ns v hwf).mp hv
    have hmem2 : (Key.item ns v, v) ∈ persistItems ns ID st items := by
      refine mem_persistItems_of ns ID items st _ hmem ?_
      intro w hw
      constructor
      · intro he
        injection he with e1 e2
        exact hvi (by rw [e2]; exact hw)
      · exact fun he => Key.noConfusion he
    have hmem3 : (Key.item ns v, v) ∈ st1 := by
      subst hst1
      exact mem_create_of_ne _ _ _ _ hmem2 (fun he => Key.noConfusion he)
    exact mem_listNamespace_of_entry st1 ns v hmem3

/-- A sequence of successful `Create` calls against one namespace with
no intervening `Delete`: each call may use its own owner ID, batch size
and bounds; the list collects the batches the calls returned. -/
inductive CreateSeq (ns : String) : Storage → List (List Int) → Storage → Prop where
  | nil (st : Storage) : CreateSeq ns st [] st
  | cons (st st1 st2 : Storage) (ID : String) (num min max : Int)
      (items : List Int) (batches : List (List Int)) :
      Service.Create st ns ID num min max = some (.ok items, st1) →
      CreateSeq ns st1 batches st2 →
      CreateSeq ns st (items :: batches) st2

lemma CreateSeq_avoids (ns : String) (st stf : Storage) (batches : List (List Int))
    (h : CreateSeq ns st batches stf) :
    ∀ v, WF st → v ∈ st.listNamespace ns → ∀ b ∈ batches, v ∉ b := by
  induction h with
  | nil => intro v _ _ b hb; cases hb
  | cons st st1 st2 ID num min max items batches hc hseq ih =>
    intro v hwf hv b hb
    rcases List.mem_cons.mp hb with rfl | hb2
    · intro hvb
      exact Create_ok_items_fresh st ns ID num min max b st1 hc v hvb hv
    · exact ih v (Create_ok_WF st ns ID num min max items st1 hwf hc)
        (Create_ok_listNamespace_mono st ns ID num min max items st1 hwf hc v hv) b hb2

lemma CreateSeq_disjoint_aux (ns : String) (st stf : Storage) (batches : List (List Int))
    (h : CreateSeq ns st batches stf) :
    WF st → batches.Pairwise (fun b1 b2 => ∀ v ∈ b1, v ∉ b2) := by
  induction h with
  | nil => intro _; exact List.Pairwise.nil
  | cons st st1 st2 ID num min max items batches hc hseq ih =>
    intro hwf
    refine List.Pairwise.cons ?_ (ih (Create_ok_WF st ns ID num min max items st1 hwf hc))
    intro b hb v hv
    have hmem1 : v ∈ st1.listNamespace ns :=
      Create_ok_items_mem st ns ID num min max items st1 hc v hv
    exact CreateSeq_avoids ns st1 st2 batches hseq v
      (Create_ok_WF st ns ID num min max items st1 hwf hc) hmem1 b hb

/-- C3: the batches returned by any sequence of successful `Create`
calls against one namespace (starting from a well-formed store, with no
intervening `Delete`) are pairwise disjoint: no item is returned twice,
so no two owners of the namespace simultaneously hold the same item. -/
theorem create_seq_disjoint (ns : String) (st stf : Storage)
    (batches : List (List Int)) (hwf : WF st) (h : CreateSeq ns st batches stf) :
    batches.Pairwise (fun b1 b2 => ∀ v ∈ b1, v ∉ b2) :=
  CreateSeq_disjoint_aux ns st stf batches h hwf

theorem create_seq_disjoint_witness :
    ([[2], [3]] : List (List Int)).Pairwise (fun b1 b2 => ∀ v ∈ b1, v ∉ b2) :=
  create_seq_disjoint "ns" []
    [(Key.latest "ns", 3), (Key.id "ns" "B" 3, 3), (Key.item "ns" 3, 3),
      (Key.id "ns" "A" 2, 2), (Key.item "ns" 2, 2)]
    [[2], [3]] (by decide)
    (CreateSeq.cons [] [(Key.latest "ns", 2), (Key.id "ns" "A" 2, 2), (Key.item "ns" 2, 2)]
      [(Key.latest "ns", 3), (Key.id "ns" "B" 3, 3), (Key.item "ns" 3, 3),
        (Key.id "ns" "A" 2, 2), (Key.item "ns" 2, 2)]
      "A" 1 2 9 [2] [[3]] (by rfl)
      (CreateSeq.cons [(Key.latest "ns", 2), (Key.id "ns" "A" 2, 2), (Key.item "ns" 2, 2)]
        [(Key.latest "ns", 3), (Key.id "ns" "B" 3, 3), (Key.item "ns" 3, 3),
          (Key.id "ns" "A" 2, 2), (Key.item "ns" 2, 2)]
        [(Key.latest "ns", 3), (Key.id "ns" "B" 3, 3), (Key.item "ns" 3, 3),
          (Key.id "ns" "A" 2, 2), (Key.item "ns" 2, 2)]
        "B" 1 2 9 [3] [] (by rfl)
        (CreateSeq.nil _)))

/-! ## Delete lemmas -/

lemma ServiceDelete_eq (st : Storage) (ns ID : String) :
    Service.Delete st ns ID =
      if (((deleteItems ns ID st (st.listOwner ns ID)).delete
          (Key.idList ns ID)).listNamespace ns).isEmpty then
        (((deleteItems ns ID st (st.listOwner ns ID)).delete
          (Key.idList ns ID)).delete (Key.itemList ns)).delete (Key.latest ns)
      else (deleteItems ns ID st (st.listOwner ns ID)).delete (Key.idList ns ID) :=
  rfl

lemma listNamespace_delete_of_neg (st : Storage) (k : Key) (ns : String)
    (h : isNamespaceItemKey ns k = false) :
    (st.delete k).listNamespace ns = st.listNamespace ns :=
  listKeys_delete_of_neg st k _ h

/-- C6: after a `Delete`, if the namespace's item set is empty then both
the namespace item-list key and the latest-cursor key have been deleted
(full garbage collection); if items remain, the latest-cursor record is
exactly what it was before the call (not rewound). -/
theorem delete_gc (st : Storage) (ns ID : String) :
    ((Service.Delete st ns ID).listNamespace ns = [] →
        (Service.Delete st ns ID).search (Key.latest ns) = none ∧
        (Service.Delete st ns ID).search (Key.itemList ns) = none) ∧
    ((Service.Delete st ns ID).listNamespace ns ≠ [] →
        (Service.Delete st ns ID).search (Key.latest ns) = st.search (Key.latest ns)) := by
  rw [ServiceDelete_eq]
  by_cases hemp :
      (((deleteItems ns ID st (st.listOwner ns ID)).delete
        (Key.idList ns ID)).listNamespace ns).isEmpty = true
  · rw [if_pos hemp]
    constructor
    · intro _
      constructor
      · exact search_delete_self _ _
      · rw [search_delete_ne _ _ _ (fun he => Key.noConfusion he)]
        exact search_delete_self _ _
    · intro hne
      exfalso
      apply hne
      rw [listNamespace_delete_of_neg _ _ _ (by rfl), listNamespace_delete_of_neg _ _ _ (by rfl)]
      exact List.isEmpty_iff.mp hemp
  · rw [if_neg hemp]
    constructor
    · intro hnil
      exact absurd (List.isEmpty_iff.mpr hnil) hemp
    · intro _
      rw [search_delete_ne _ _ _ (fun he => Key.noConfusion he)]
      refine deleteItems_search_frame ns ID (st.listOwner ns ID) st (Key.latest ns) ?_
      intro w _
      exact ⟨fun he => Key.noConfusion he, fun he => Key.noConfusion he⟩

theorem delete_gc_witness :
    (Service.Delete [(Key.item "ns" 2, 2), (Key.id "ns" "A" 2, 2), (Key.latest "ns", 2)]
        "ns" "A").search (Key.latest "ns") = none ∧
      (Service.Delete [(Key.item "ns" 2, 2), (Key.id "ns" "A" 2, 2), (Key.latest "ns", 2)]
        "ns" "A").search (Key.itemList "ns") = none :=
  (delete_gc [(Key.item "ns" 2, 2), (Key.id "ns" "A" 2, 2), (Key.latest "ns", 2)]
    "ns" "A").1 (by rfl)

/-- C9: deleting an owner that currently holds no items in the
namespace succeeds (the model `Delete` is total) and leaves every other
owner's records — and every namespace-level item record — unchanged. -/
theorem delete_empty_owner (st : Storage) (ns ID : String)
    (h : st.listOwner ns ID = []) :
    (∀ ID2 v, ID2 ≠ ID →
        (Service.Delete st ns ID).search (Key.id ns ID2 v) = st.search (Key.id ns ID2 v)) ∧
    (∀ v, (Service.Delete st ns ID).search (Key.item ns v) = st.search (Key.item ns v)) := by
  rw [ServiceDelete_eq, h]
  have hmid : ∀ k2 : Key, ¬ k2 = Key.idList ns ID →
      ((deleteItems ns ID st []).delete (Key.idList ns ID)).search k2 = st.search k2 := by
    intro k2 hk2
    rw [search_delete_ne _ _ _ hk2]
    rfl
  by_cases hemp :
      (((deleteItems ns ID st []).delete (Key.idList ns ID)).listNamespace ns).isEmpty = true
  · rw [if_pos hemp]
    constructor
    · intro ID2 v _
      rw [search_delete_ne _ _ _ (fun he => Key.noConfusion he),
        search_delete_ne _ _ _ (fun he => Key.noConfusion he)]
      exact hmid _ (fun he => Key.noConfusion he)
    · intro v
      rw [search_delete_ne _ _ _ (fun he => Key.noConfusion he),
        search_delete_ne _ _ _ (fun he => Key.noConfusion he)]
      exact hmid _ (fun he => Key.noConfusion he)
  · rw [if_neg hemp]
    exact ⟨fun ID2 v _ => hmid _ (fun he => Key.noConfusion he),
      fun v => hmid _ (fun he => Key.noConfusion he)⟩

theorem delete_empty_owner_witness :
    (Service.Delete [(Key.id "ns" "B" 5, 5), (Key.item "ns" 5, 5)] "ns" "A").search
        (Key.id "ns" "B" 5) =
      Storage.search [(Key.id "ns" "B" 5, 5), (Key.item "ns" 5, 5)] (Key.id "ns" "B" 5) :=
  (delete_empty_owner [(Key.id "ns" "B" 5, 5), (Key.item "ns" 5, 5)] "ns" "A"
    (by rfl)).1 "B" 5 (by decide)

/-! ## Cursor continuation -/

lemma readLatest_create_latest (st : Storage) (ns : String) (v : Int) :
    (st.create (Key.latest ns) v).readLatest ns = v := by
  unfold Storage.readLatest
  rw [search_create_self]

lemma mem_of_getLast?_eq_some (l : List Int) (x : Int) (h : l.getLast? = some x) :
    x ∈ l := by
  obtain ⟨hne, he⟩ := List.mem_getLast?_eq_getLast (l := l) (x := x) (Option.mem_def.mpr h)
  rw [he]
  exact List.getLast_mem hne

lemma nextItem_ok_phase1_least (used : List Int) (min max latest v : Int)
    (hn : nextItem used min max latest = .ok v) (hl : latest ≠ -1)
    (hfree : ∃ w, freeIn used (latest + 1) max w) :
    leastFreeIn used (latest + 1) max v := by
  obtain ⟨hvalid, _, _, _⟩ := nextItem_ok_inv used min max latest v hn
  obtain ⟨he, hle⟩ := nextItem_phase1 used min max latest hvalid hl hfree
  rw [hn] at he
  have hv : v = iterator (sortInts used) (latest + 1) max := Except.ok.inj he
  rw [hv]
  exact hle

/-- C7: when a successful `Create` (same bounds, no intervening
`Delete`) follows a successful `Create` whose batch ended in `last`,
and some value of `last+1 .. max` is still free in the namespace, the
second call's first item is the smallest such value — allocation
continues from one past the previous batch's last value, not from
`min`. -/
theorem cursor_continuation (st st1 st2 : Storage) (ns A B : String)
    (n1 n2 min max : Int) (items1 items2 : List Int) (last v : Int)
    (h1 : Service.Create st ns A n1 min max = some (.ok items1, st1))
    (hlast : items1.getLast? = some last)
    (h2 : Service.Create st1 ns B n2 min max = some (.ok items2, st2))
    (hhead : items2.head? = some v)
    (hfree : ∃ w, freeIn (st1.listNamespace ns) (last + 1) max w) :
    leastFreeIn (st1.listNamespace ns) (last + 1) max v := by
  obtain ⟨ha1, last2, hlast2, hst1⟩ := Create_ok_inv st ns A n1 min max items1 st1 h1
  have hll : last2 = last := Option.some.inj (hlast2 ▸ hlast)
  subst hll
  have hread : st1.readLatest ns = last2 := by
    rw [hst1]
    exact readLatest_create_latest _ ns last2
  obtain ⟨ha2, last3, hlast3, hst2⟩ := Create_ok_inv st1 ns B n2 min max items2 st2 h2
  rw [hread] at ha2
  obtain ⟨rest, hrest⟩ : ∃ rest, items2 = v :: rest := by
    cases items2 with
    | nil => exact absurd hhead (by simp)
    | cons a rest =>
      have hav : a = v := Option.some.inj (by simpa using hhead)
      exact ⟨rest, by rw [hav]⟩
  subst hrest
  have hn2 : ∃ m : Nat, n2.toNat = Nat.succ m := by
    cases hm : n2.toNat with
    | zero =>
      rw [hm] at ha2
      unfold allocItems at ha2
      exact absurd (Except.ok.inj ha2) (by simp)
    | succ m => exact ⟨m, rfl⟩
  have hnext : nextItem (st1.listNamespace ns) min max last2 = .ok v :=
    allocItems_head (st1.listNamespace ns) min max last2 n2.toNat v rest ha2
  have hlmem : last2 ∈ items1 := mem_of_getLast?_eq_some items1 last2 hlast
  have hb := ((allocItems_ok_inv min max (st.readLatest ns) n1.toNat
    (st.listNamespace ns) items1 ha1).2.2.1 last2 hlmem).2
  have hvalid1 := (allocItems_ok_inv min max (st.readLatest ns) n1.toNat
    (st.listNamespace ns) items1 ha1).2.2.2 (by intro he; rw [he] at hlmem; cases hlmem)
  have hlne : last2 ≠ -1 := by
    obtain ⟨hm0, _, _, _⟩ := hvalid1
    omega
  exact nextItem_ok_phase1_least (st1.listNamespace ns) min max last2 v hnext hlne hfree

theorem cursor_continuation_witness :
    leastFreeIn
      (Storage.listNamespace
        [(Key.latest "ns", 2), (Key.id "ns" "A" 2, 2), (Key.item "ns" 2, 2)] "ns")
      (2 + 1) 9 3 :=
  cursor_continuation [] [(Key.latest "ns", 2), (Key.id "ns" "A" 2, 2), (Key.item "ns" 2, 2)]
    [(Key.latest "ns", 3), (Key.id "ns" "A" 3, 3), (Key.item "ns" 3, 3),
      (Key.id "ns" "A" 2, 2), (Key.item "ns" 2, 2)]
    "ns" "A" "A" 1 1 2 9 [2] [3] 2 3 (by rfl) (by rfl) (by rfl) (by rfl)
    ⟨3, by decide⟩

/-! ## Search lemmas -/

lemma sortInts_sorted (l : List Int) : List.Sorted (fun a b : Int => a ≤ b) (sortInts l) :=
  List.sorted_insertionSort _ l

lemma sortInts_perm (l : List Int) : List.Perm (sortInts l) l :=
  List.perm_insertionSort _ l

lemma sortInts_eq_of_perm (l1 l2 : List Int) (h : List.Perm l1 l2) :
    sortInts l1 = sortInts l2 :=
  List.eq_of_perm_of_sorted ((sortInts_perm l1).trans (h.trans (sortInts_perm l2).symm))
    (sortInts_sorted l1) (sortInts_sorted l2)

lemma listOwner_nil_iff (st : Storage) (ns ID : String) :
    st.listOwner ns ID = [] ↔ ∀ q ∈ st, isOwnerItemKey ns ID q.1 = false :=
  listKeys_nil_iff st _

lemma listOwner_create_id (st : Storage) (ns ID : String) (w : Int)
    (hfresh : ∀ q ∈ st, ¬ q.1 = Key.id ns ID w) :
    (st.create (Key.id ns ID w) w).listOwner ns ID = w :: st.listOwner ns ID :=
  listKeys_create_of_pos st _ w _ (by simp [isOwnerItemKey]) hfresh

lemma listOwner_create_other (st : Storage) (ns ID : String) (k : Key) (v : Int)
    (h : isOwnerItemKey ns ID k = false) :
    (st.create k v).listOwner ns ID = st.listOwner ns ID :=
  listKeys_create_of_neg st k v _ h

lemma listOwner_persistItems (ns ID : String) (items : List Int) (st : Storage)
    (hnodup : items.Nodup)
    (hfresh : ∀ w ∈ items, ∀ q ∈ st, ¬ q.1 = Key.id ns ID w) :
    List.Perm ((persistItems ns ID st items).listOwner ns ID)
      (items ++ st.listOwner ns ID) := by
  induction items generalizing st with
  | nil => simp [persistItems, List.Perm.refl]
  | cons w rest ih =>
    unfold persistItems
    have hlist : ((st.create (Key.item ns w) w).create (Key.id ns ID w) w).listOwner ns ID =
        w :: st.listOwner ns ID := by
      rw [listOwner_create_id, listOwner_create_other st ns ID _ _ (by rfl)]
      intro q hq
      rcases (mem_create_iff st (Key.item ns w) w q).mp hq with rfl | ⟨hmem, _⟩
      · exact fun he => Key.noConfusion he
      · exact hfresh w (List.mem_cons_self w rest) q hmem
    have hfresh2 : ∀ x ∈ rest, ∀ q ∈ ((st.create (Key.item ns w) w).create (Key.id ns ID w) w),
        ¬ q.1 = Key.id ns ID x := by
      intro x hx q hq
      rcases (mem_create_iff _ (Key.id ns ID w) w q).mp hq with rfl | ⟨hq2, _⟩
      · intro he
        injection he with e1 e2 e3
        exact (List.nodup_cons.mp hnodup).1 (by rw [e3]; exact hx)
      · rcases (mem_create_iff st (Key.item ns w) w q).mp hq2 with rfl | ⟨hq3, _⟩
        · exact fun he => Key.noConfusion he
        · exact hfresh x (List.mem_cons_of_mem w hx) q hq3
    have h1 := ih ((st.create (Key.item ns w) w).create (Key.id ns ID w) w)
      (List.nodup_cons.mp hnodup).2 hfresh2
    rw [hlist] at h1
    exact h1.trans List.perm_middle

lemma mid_no_owner_keys (st : Storage) (ns ID : String) (hwf : WF st) :
    ∀ q ∈ ((deleteItems ns ID st (st.listOwner ns ID)).delete (Key.idList ns ID)),
      isOwnerItemKey ns ID q.1 = false := by
  intro q hq
  have hq2 := (mem_delete_iff _ _ _).mp hq
  obtain ⟨hst, hcond⟩ := (mem_deleteItems_iff ns ID (st.listOwner ns ID) st q).mp hq2.1
  cases hb : isOwnerItemKey ns ID q.1 with
  | false => rfl
  | true =>
    exfalso
    obtain ⟨x, hx⟩ := (isOwnerItemKey_iff ns ID q.1).mp hb
    obtain ⟨qk, qv⟩ := q
    simp only at hx
    subst hx
    have hval : qv = x := WF_id_value st ns ID x qv hwf hst
    subst hval
    have hxm : qv ∈ st.listOwner ns ID := (mem_listOwner_WF st ns ID qv hwf).mpr hst
    exact (hcond qv hxm).2 rfl

lemma listOwner_Delete_self (st : Storage) (ns ID : String) (hwf : WF st) :
    (Service.Delete st ns ID).listOwner ns ID = [] := by
  rw [ServiceDelete_eq]
  by_cases hemp :
      (((deleteItems ns ID st (st.listOwner ns ID)).delete
        (Key.idList ns ID)).listNamespace ns).isEmpty = true
  · rw [if_pos hemp, listOwner_nil_iff]
    intro q hq
    have hq1 := ((mem_delete_iff _ _ _).mp hq).1
    have hq2 := ((mem_delete_iff _ _ _).mp hq1).1
    exact mid_no_owner_keys st ns ID hwf q hq2
  · rw [if_neg hemp, listOwner_nil_iff]
    exact mid_no_owner_keys st ns ID hwf

/-- C8 (`Search` is modelled from the spec, being absent from src/):
`Search` returns the owner's items sorted ascending and fails with
`ItemsNotFound` when the owner holds none; after a successful `Create`
by a previously empty owner it returns exactly the allocated batch in
ascending order, and after `Delete` of the owner it fails with
`ItemsNotFound`. -/
theorem search_spec (st : Storage) (ns ID : String) (hwf : WF st) :
    (st.listOwner ns ID = [] → Service.Search st ns ID = .error .itemsNotFound) ∧
    (∀ l, Service.Search st ns ID = .ok l →
        List.Sorted (fun a b : Int => a ≤ b) l ∧ List.Perm l (st.listOwner ns ID)) ∧
    (∀ num min max items st1, st.listOwner ns ID = [] →
        Service.Create st ns ID num min max = some (.ok items, st1) →
        Service.Search st1 ns ID = .ok (sortInts items)) ∧
    Service.Search (Service.Delete st ns ID) ns ID = .error .itemsNotFound := by
  refine ⟨?_, ?_, ?_, ?_⟩
  · intro h
    simp [Service.Search, h]
  · intro l h
    simp only [Service.Search] at h
    by_cases hemp : (st.listOwner ns ID).isEmpty = true
    · rw [if_pos hemp] at h
      exact absurd h (by simp)
    · rw [if_neg hemp] at h
      have hl : l = sortInts (st.listOwner ns ID) := (Except.ok.inj h).symm
      subst hl
      exact ⟨sortInts_sorted _, sortInts_perm _⟩
  · intro num min max items st1 hnil hc
    obtain ⟨ha, last, hlast, hst1⟩ := Create_ok_inv st ns ID num min max items st1 hc
    have hnodup := (allocItems_ok_inv min max (st.readLatest ns) num.toNat
      (st.listNamespace ns) items ha).2.1
    have hfresh : ∀ w ∈ items, ∀ q ∈ st, ¬ q.1 = Key.id ns ID w := by
      intro w _ q hq he
      have hq2 := (listOwner_nil_iff st ns ID).mp hnil q hq
      rw [he] at hq2
      simp [isOwnerItemKey] at hq2
    have hperm : List.Perm (st1.listOwner ns ID) items := by
      rw [hst1, listOwner_create_other _ ns ID _ _ (by rfl)]
      have hp := listOwner_persistItems ns ID items st hnodup hfresh
      rw [hnil] at hp
      simpa using hp
    have hne : items ≠ [] := by
      intro he
      rw [he] at hlast
      exact absurd hlast (by simp)
    have hne2 : ¬ (st1.listOwner ns ID).isEmpty = true := by
      rw [List.isEmpty_iff]
      intro he
      rw [he] at hperm
      exact hne (List.Perm.eq_nil hperm.symm)
    simp only [Service.Search]
    rw [if_neg hne2]
    rw [sortInts_eq_of_perm _ _ hperm]
  · have hnil := listOwner_Delete_self st ns ID hwf
    simp [Service.Search, hnil]

theorem search_spec_witness :
    Service.Search
      (Service.Delete [(Key.item "ns" 2, 2), (Key.id "ns" "A" 2, 2), (Key.latest "ns", 2)]
        "ns" "A") "ns" "A" = .error .itemsNotFound :=
  (search_spec [(Key.item "ns" 2, 2), (Key.id "ns" "A" 2, 2), (Key.latest "ns", 2)]
    "ns" "A" (by decide)).2.2.2

end Rangepool
